import Mathlib

/-!
Verification development for the orb system (`src/OrbSystem.ts` of the
InspoLand repository, the latest `OrbSystem` revision, which the spec
designates as canonical).

Time stamps and all scalar quantities are modelled as exact rationals.
External collaborators (renderer, camera projection, ray casting,
`Math.random`) are modelled as explicit inputs:
  * `Env.width` is `window.innerWidth`;
  * `Env.posChoices i` / `Env.linkChoices i` are the outcomes of the i-th
    `Math.floor(Math.random() * len)` draw of the tick, reduced mod `len`;
  * `Env.hoverHit` is the index (into the orb list) of the orb owning the
    nearest mesh returned by `raycaster.intersectObjects` over the visible
    meshes, `none` when there is no intersection;
  * `Env.centerOrigin`/`Env.centerDir` are the ray that
    `getMobileSpawnPoint` casts through the viewport centre;
  * `Env.distToCamera p` is `p.distanceTo(camera.position)`.
A mesh/light pair in the scene graph is represented by its observable
fields on the orb record (position, visibility, scale, intensity, ...).
-/

/-- World-space vector with exact rational coordinates (`THREE.Vector3`). -/
structure Vec3 where
  x : ℚ
  y : ℚ
  z : ℚ
deriving DecidableEq, Repr

/-- A payload record from `links.ts` (`LinkData`). -/
structure LinkData where
  title : String
  url : String
deriving DecidableEq, Repr

/-- Lifecycle phase of an orb (the rising | paused | falling union). -/
inductive Phase where
  | rising
  | paused
  | falling
deriving DecidableEq, Repr

/-- The `inspirationLinks` catalog from `links.ts`. -/
def inspirationLinks : List LinkData := [
  ⟨"Jony Ive, Stripe sessions", "https://www.youtube.com/watch?v=wLb9g_8r-mE"⟩,
  ⟨"Our interfaces have lost their senses", "https://wattenberger.com/thoughts/our-interfaces-have-lost-their-senses"⟩,
  ⟨"Benjamin De Cock, animations on the web", "https://www.youtube.com/watch?v=fZpTvZuysIo"⟩,
  ⟨"Basquiat work ethic", "https://www.youtube.com/watch?v=8G9pnE0bnfE"⟩,
  ⟨"Tristan Harris on the Attention economy", "https://www.youtube.com/watch?v=0TZKOuQLMfM&list=PLNJ20pugcvHtbd06E-v2-hQ5miF45R-6l&index=10"⟩,
  ⟨"Objectified", "https://www.youtube.com/watch?v=S9E2D2PaIcI"⟩,
  ⟨"ContraPoints, the age of Aesthetic", "https://www.youtube.com/watch?v=z1afqR5QkDM"⟩,
  ⟨"John Berger, Ways of Seeing", "https://www.ways-of-seeing.com/"⟩,
  ⟨"Speculative Everything", "https://readings.design/PDF/speculative-everything.pdf"⟩,
  ⟨"Rasmus, on taste", "https://x.com/rsms/status/1634683866773618688"⟩,
  ⟨"Interfaces of Neon Genesis Evangelion", "https://www.youtube.com/watch?v=zI2Fme6k-Iw&list=RDzI2Fme6k-Iw"⟩,
  ⟨"RyOS", "https://os.ryo.lu/"⟩,
  ⟨"Sunlight Place, by Chloe Yan", "https://www.sunlit.place/"⟩,
  ⟨"Dia Browser, onboarding", "https://x.com/avstorm/status/1932800037081247788?s=20"⟩,
  ⟨"Beautiful Things, Intdev studio", "https://www.beautifulthings.xyz/"⟩,
  ⟨"Susan Kare interview with Soleio", "https://www.youtube.com/watch?v=1kcxcVr3Css"⟩,
  ⟨"Wreath, Dance contest winner", "https://www.youtube.com/watch?v=HG0MR86U0pw&list=RDHG0MR86U0pw"⟩
]

/-- One spawned orb (`OrbData`), with the observable state of its owned
mesh (`meshPos`, `meshVisible`, `meshScale`, `mesh.userData.hoverScale`),
material (`materialOpacity`, `materialLum` — the scalar by which the base
colour `0xf5f5f0` is multiplied) and point light (`lightPos`,
`lightVisible`, `lightIntensity`) inlined. -/
structure OrbData where
  startTime : ℚ
  duration : ℚ
  basePosition : Vec3
  targetHeight : ℚ
  phase : Phase
  phaseStartTime : ℚ
  isHovered : Bool
  targetOpacity : ℚ
  currentOpacity : ℚ
  targetScale : ℚ
  currentScale : ℚ
  targetLuminosity : ℚ
  currentLuminosity : ℚ
  baseLightIntensity : ℚ
  linkData : LinkData
  isClicked : Bool
  meshPos : Vec3
  meshVisible : Bool
  meshScale : ℚ
  hoverScale : ℚ
  materialOpacity : ℚ
  materialLum : ℚ
  lightPos : Vec3
  lightVisible : Bool
  lightIntensity : ℚ
deriving DecidableEq, Repr

/-- The mutable state of the `OrbSystem` component. -/
structure OrbSystem where
  orbs : List OrbData
  lastSpawnTime : ℚ
  usedLinks : Finset ℕ
deriving DecidableEq

/-- Model of `spawnInterval = 5000` ms. -/
def spawnInterval : ℚ := 5000

/-- Model of `maxOrbs = 2`. -/
def maxOrbs : ℕ := 2

/-- The eight handpicked `spawnPoints`. -/
def spawnPoints : List Vec3 := [
  ⟨8.30, 1.11, -8.60⟩,
  ⟨17.42, 2.70, -1.47⟩,
  ⟨11.64, 1.05, -12.90⟩,
  ⟨11.03, 4.54, 9.40⟩,
  ⟨6.71, 4.32, 5.33⟩,
  ⟨2.33, 3.19, -14.05⟩,
  ⟨17.32, 3.36, 2.43⟩,
  ⟨7.93, 1.75, -13.34⟩
]

/-- The per-tick external inputs (see the module docstring). -/
structure Env where
  width : ℚ
  posChoices : ℕ → ℕ
  linkChoices : ℕ → ℕ
  hoverHit : Option ℕ
  centerOrigin : Vec3
  centerDir : Vec3
  distToCamera : Vec3 → ℚ

/-- Model of `isMobileScreen()`: `window.innerWidth <= 768`. -/
def isMobileScreen (width : ℚ) : Bool :=
  decide (width ≤ 768)

/-- Model of `getMobileSpawnPoint()`: 8 units along the centre ray, `y` clamped to
at least 2.5. -/
def getMobileSpawnPoint (origin dir : Vec3) : Vec3 :=
  let c : Vec3 := ⟨origin.x + 8 * dir.x, origin.y + 8 * dir.y, origin.z + 8 * dir.z⟩
  { c with y := max c.y 2.5 }

/-- The indices of `inspirationLinks` not currently in `usedLinks`
(the `availableIndices` array built by `getRandomLink`). -/
def availableIndices (used : Finset ℕ) : List ℕ :=
  (List.range inspirationLinks.length).filter (fun i => decide (i ∉ used))

/-- Model of `getRandomLink()`: pick among the available catalog indices, clearing
the in-use set first when none is available; `choice` is the random draw,
used mod the number of candidates. Returns the record and the updated
in-use set. -/
def getRandomLink (used : Finset ℕ) (choice : ℕ) : LinkData × Finset ℕ :=
  let avail := availableIndices used
  let p := if avail.isEmpty then (List.range inspirationLinks.length, (∅ : Finset ℕ)) else (avail, used)
  let idx := p.1.getD (choice % p.1.length) 0
  (inspirationLinks.getD idx ⟨"", ""⟩, insert idx p.2)

/-- Model of `createOrb(currentTime, delay, position)`: acquire a payload record and
push a fresh orb whose clock starts at `currentTime + delay`; the mesh and
light start invisible when `delay > 0`. -/
def createOrb (now delay : ℚ) (position : Vec3) (choice : ℕ) (s : OrbSystem) : OrbSystem :=
  let r := getRandomLink s.usedLinks choice
  let delayedStartTime := now + delay
  let vis : Bool := decide (¬ delay > 0)
  let o : OrbData := {
    startTime := delayedStartTime
    duration := 3800
    basePosition := position
    targetHeight := 1.0
    phase := Phase.rising
    phaseStartTime := delayedStartTime
    isHovered := false
    targetOpacity := 0.8
    currentOpacity := 0.8
    targetScale := 1.0
    currentScale := 1.0
    targetLuminosity := 1.0
    currentLuminosity := 1.0
    baseLightIntensity := 50
    linkData := r.1
    isClicked := false
    meshPos := position
    meshVisible := vis
    meshScale := 1.0
    hoverScale := 1.0
    materialOpacity := 0.8
    materialLum := 1.0
    lightPos := position
    lightVisible := vis
    lightIntensity := 50 }
  { s with orbs := s.orbs ++ [o], usedLinks := r.2 }

/-- The without-replacement draw of `spawnOrbs`: repeatedly pick a random
element of the remaining spawn points and remove it. `ch k` is the k-th
random draw of the loop. -/
def selectSpawnPositions : ℕ → (ℕ → ℕ) → List Vec3 → List Vec3
  | 0, _, _ => []
  | _ + 1, _, [] => []
  | n + 1, ch, a :: rest =>
    let idx := ch 0 % (a :: rest).length
    (a :: rest).getD idx ⟨0, 0, 0⟩ ::
      selectSpawnPositions n (fun k => ch (k + 1)) ((a :: rest).eraseIdx idx)

/-- The creation loop of `spawnOrbs`: the i-th orb gets delay `i * 500` ms
and link draw `linkCh i`. -/
def spawnLoop (now : ℚ) (linkCh : ℕ → ℕ) : List Vec3 → ℕ → OrbSystem → OrbSystem
  | [], _, s => s
  | p :: ps, i, s => spawnLoop now linkCh ps (i + 1) (createOrb now ((i : ℚ) * 500) p (linkCh i) s)

/-- Model of `spawnOrbs(currentTime)`: on a narrow viewport spawn a single orb at
the computed centre position when none is alive; otherwise spawn
`min(2, maxOrbs - orbs.length)` orbs at distinct random spawn points, the
second delayed 500 ms. -/
def spawnOrbs (env : Env) (now : ℚ) (s : OrbSystem) : OrbSystem :=
  if isMobileScreen env.width then
    if s.orbs.length = 0 then
      createOrb now 0 (getMobileSpawnPoint env.centerOrigin env.centerDir) (env.linkChoices 0) s
    else s
  else
    let orbsToSpawn := min 2 (maxOrbs - s.orbs.length)
    let positions := selectSpawnPositions orbsToSpawn env.posChoices spawnPoints
    spawnLoop now env.linkChoices positions 0 s

/-- Model of `isOrbAtSpecialPosition(position)`: within tolerance 0.1 of spawn point
#2 `(17.42, 2.70, -1.47)` or #7 `(17.32, 3.36, 2.43)`. -/
def isOrbAtSpecialPosition (position : Vec3) : Bool :=
  let isOrb2 := decide (|position.x - 17.42| < 0.1) &&
                decide (|position.y - 2.70| < 0.1) &&
                decide (|position.z - (-1.47)| < 0.1)
  let isOrb7 := decide (|position.x - 17.32| < 0.1) &&
                decide (|position.y - 3.36| < 0.1) &&
                decide (|position.z - 2.43| < 0.1)
  isOrb2 || isOrb7

/-- Set the `y` coordinate of a vector (mesh/light `position.y = h`). -/
def Vec3.setY (v : Vec3) (h : ℚ) : Vec3 :=
  { v with y := h }

/-- Model of `updateOrbAnimation(orb, currentTime)`: the per-phase motion step;
`width` is needed because the falling branch consults `isMobileScreen`. -/
def updateOrbAnimation (width : ℚ) (now : ℚ) (o : OrbData) : OrbData :=
  let phaseAge := now - o.phaseStartTime
  match o.phase with
  | Phase.rising =>
    let risingDuration : ℚ := 500
    if phaseAge ≥ risingDuration then
      let peakY := o.basePosition.y + o.targetHeight
      { o with phase := Phase.paused, phaseStartTime := now,
               meshPos := o.meshPos.setY peakY, lightPos := o.lightPos.setY peakY }
    else
      let progress := phaseAge / risingDuration
      let easedProgress := 1 - (1 - progress) ^ 3
      let currentHeight := o.basePosition.y + o.targetHeight * easedProgress
      { o with meshPos := o.meshPos.setY currentHeight,
               lightPos := o.lightPos.setY currentHeight }
  | Phase.paused =>
    let pauseDuration : ℚ := 2000
    if phaseAge ≥ pauseDuration then
      { o with phase := Phase.falling, phaseStartTime := now }
    else o
  | Phase.falling =>
    let fallingDuration : ℚ := 800
    let fallProgress := min (phaseAge / fallingDuration) 1
    let easedFallProgress := fallProgress * fallProgress * fallProgress
    let needsDeeperSink := isOrbAtSpecialPosition o.basePosition
    let isMobileOrb := isMobileScreen width
    let sinkDepth : ℚ := (if needsDeeperSink then 3.0 else 1.5) + (if isMobileOrb then 5.0 else 0)
    let totalFallDistance := o.targetHeight + sinkDepth
    let currentHeight := o.basePosition.y + o.targetHeight - totalFallDistance * easedFallProgress
    { o with meshPos := o.meshPos.setY currentHeight,
             lightPos := o.lightPos.setY currentHeight }

/-- Model of `updateOrbSize(orb)`: distance-scaled apparent size times the cached
hover-scale multiplier. -/
def updateOrbSize (dist : Vec3 → ℚ) (o : OrbData) : OrbData :=
  let d := dist o.meshPos
  let baseSize : ℚ := 1.6
  let distanceScaleFactor := max 0.3 (baseSize / (d * 0.1))
  { o with meshScale := distanceScaleFactor * o.hoverScale }

/-- Model of `updateOrbVisualEffects(orb)`: each visual channel moves by a fixed
fraction of its remaining distance to target (opacity 0.1, scale 0.15,
luminosity 0.12); the results are written through to the material, the
`hoverScale` cache and the light. -/
def updateOrbVisualEffects (o : OrbData) : OrbData :=
  let opacityDiff := o.targetOpacity - o.currentOpacity
  let easeSpeed : ℚ := 0.1
  let newOpacity := o.currentOpacity + opacityDiff * easeSpeed
  let scaleDiff := o.targetScale - o.currentScale
  let scaleEaseSpeed : ℚ := 0.15
  let newScale := o.currentScale + scaleDiff * scaleEaseSpeed
  let luminosityDiff := o.targetLuminosity - o.currentLuminosity
  let luminosityEaseSpeed : ℚ := 0.12
  let newLuminosity := o.currentLuminosity + luminosityDiff * luminosityEaseSpeed
  { o with currentOpacity := newOpacity, materialOpacity := newOpacity,
           currentScale := newScale, hoverScale := newScale,
           currentLuminosity := newLuminosity, materialLum := newLuminosity,
           lightIntensity := o.baseLightIntensity * newLuminosity }

/-- The hover reset applied to every orb each tick (`isHovered = false`
and baseline targets). -/
def resetHoverOrb (o : OrbData) : OrbData :=
  { o with isHovered := false, targetOpacity := 0.8, targetScale := 1.0,
           targetLuminosity := 1.0 }

/-- The hover preset applied to the orb owning the nearest intersected
mesh. -/
def hoverPresetOrb (o : OrbData) : OrbData :=
  { o with isHovered := true, targetOpacity := 1.0, targetScale := 0.95,
           targetLuminosity := 1.8 }

/-- Model of `updateHoverDetection()`: reset all hover state, then apply the hover
preset to the orb owning the nearest intersected visible mesh (`hit` is
`none` when the ray hits no visible mesh; an invisible orb is never hit
because only visible meshes are ray-cast). -/
def updateHoverDetection (hit : Option ℕ) (orbs : List OrbData) : List OrbData :=
  let reset := orbs.map resetHoverOrb
  match hit with
  | none => reset
  | some i =>
    match reset[i]? with
    | none => reset
    | some o => if o.meshVisible then reset.set i (hoverPresetOrb o) else reset

/-- Model of the effect of `removeOrb` on the in-use payload set: delete the
first catalog index whose `url` equals the url of the removed orb payload. -/
def releaseLink (used : Finset ℕ) (l : LinkData) : Finset ℕ :=
  match inspirationLinks.findIdx? (fun link => link.url == l.url) with
  | some linkIndex => used.erase linkIndex
  | none => used

/-- Whether the sweep of `update(now)` removes an orb: it has started
(`orbAge ≥ 0`, otherwise it is skipped as pending) and `orbAge ≥ duration`. -/
def sweepRemoves (now : ℚ) (o : OrbData) : Bool :=
  decide (0 ≤ now - o.startTime) && decide (now - o.startTime ≥ o.duration)

/-- The per-orb body of the sweep loop of `update`: a pending orb is hidden and
skipped; a started orb is made visible, removed when its age reaches its
duration, and otherwise animated (`updateOrbAnimation`, `updateOrbSize`,
`updateOrbVisualEffects`). -/
def sweepOrb (env : Env) (now : ℚ) (o : OrbData) : Option OrbData :=
  let orbAge := now - o.startTime
  if orbAge < 0 then
    some { o with meshVisible := false, lightVisible := false }
  else
    let o := { o with meshVisible := true, lightVisible := true }
    if orbAge ≥ o.duration then none
    else some (updateOrbVisualEffects (updateOrbSize env.distToCamera (updateOrbAnimation env.width now o)))

/-- Model of `update(currentTime)`: maybe spawn (resetting `lastSpawnTime`), run
hover detection, then sweep every orb (the reverse-index loop with
`splice` visits each orb once and preserves order, so it is the
order-preserving `filterMap` of the per-orb body; the `usedLinks`
deletions of `removeOrb` are accumulated alongside). -/
def update (env : Env) (now : ℚ) (s : OrbSystem) : OrbSystem :=
  let s1 := if now - s.lastSpawnTime ≥ spawnInterval then
              { spawnOrbs env now s with lastSpawnTime := now }
            else s
  let hovered := updateHoverDetection env.hoverHit s1.orbs
  { s1 with
    orbs := hovered.filterMap (sweepOrb env now),
    usedLinks := hovered.foldl
      (fun u o => if sweepRemoves now o then releaseLink u o.linkData else u)
      s1.usedLinks }

/-- Model of `onOrbClick(event)`: `hit` is the orb owning the nearest intersected
visible mesh (ray-cast only sees visible meshes). When that orb is not yet
clicked, mark it clicked and open its payload URL; the returned list holds
the `window.open` events of this click as `(orb index, url)` pairs. The
transient 100 ms scale pulse reverts via a timeout and is not modelled. -/
def onOrbClick (hit : Option ℕ) (s : OrbSystem) : OrbSystem × List (ℕ × String) :=
  match hit with
  | none => (s, [])
  | some i =>
    match s.orbs[i]? with
    | none => (s, [])
    | some o =>
      if o.meshVisible && !o.isClicked then
        ({ s with orbs := s.orbs.set i { o with isClicked := true } },
         [(i, o.linkData.url)])
      else (s, [])

/-- The lifecycle ease applied to the light intensity of one orb at snapshot
time by `getSimpleOrbData` (`now` is the `Date.now()` read inside it). -/
def easedIntensity (now : ℚ) (o : OrbData) : ℚ :=
  let orbAge := now - o.startTime
  match o.phase with
  | Phase.rising =>
    let risingProgress := min (orbAge / 500) 1
    let easeOut := 1 - (1 - risingProgress) ^ 3
    o.lightIntensity * easeOut
  | Phase.falling =>
    let fallingAge := now - o.phaseStartTime
    let fallingProgress := min (fallingAge / 500) 1
    let easeOut := 1 - fallingProgress ^ 3
    o.lightIntensity * easeOut
  | Phase.paused => o.lightIntensity

/-- Model of `getSimpleOrbData()`: positions and lifecycle-eased intensities of the
visible orbs only. -/
def getSimpleOrbData (now : ℚ) (s : OrbSystem) : List Vec3 × List ℚ :=
  let vis := s.orbs.filter (fun o => o.meshVisible)
  (vis.map (fun o => o.meshPos), vis.map (easedIntensity now))

/-- The initial state of the component. -/
def initState : OrbSystem :=
  { orbs := [], lastSpawnTime := 0, usedLinks := ∅ }

attribute [local semireducible] Rat.add Rat.sub Rat.mul Rat.inv Rat.ofScientific

/-- A concrete desktop-viewport environment whose random draws all return
0, used to instantiate the theorems on concrete input. -/
def sampleEnv : Env :=
  { width := 1024, posChoices := fun _ => 0, linkChoices := fun _ => 0,
    hoverHit := none, centerOrigin := ⟨0, 0, 0⟩, centerDir := ⟨0, 0, 1⟩,
    distToCamera := fun _ => 10 }

/-- The orb `createOrb(0, 0, spawnPoints[0])` builds (with catalog record
0 as payload), spelled out field by field; used to instantiate theorems. -/
def sampleOrb : OrbData :=
  { startTime := 0, duration := 3800, basePosition := ⟨8.30, 1.11, -8.60⟩,
    targetHeight := 1.0, phase := Phase.rising, phaseStartTime := 0,
    isHovered := false, targetOpacity := 0.8, currentOpacity := 0.8,
    targetScale := 1.0, currentScale := 1.0, targetLuminosity := 1.0,
    currentLuminosity := 1.0, baseLightIntensity := 50,
    linkData := ⟨"Jony Ive, Stripe sessions", "https://www.youtube.com/watch?v=wLb9g_8r-mE"⟩,
    isClicked := false, meshPos := ⟨8.30, 1.11, -8.60⟩, meshVisible := true,
    meshScale := 1.0, hoverScale := 1.0, materialOpacity := 0.8,
    materialLum := 1.0, lightPos := ⟨8.30, 1.11, -8.60⟩, lightVisible := true,
    lightIntensity := 50 }

/-- Moving from `c` toward `t` by the fraction `r ∈ [0, 1]` of the
remaining distance stays between `c` and `t` and shrinks the remaining
distance by the factor `1 - r`. -/
theorem ease_step_between (c t r : ℚ) (h0 : 0 ≤ r) (h1 : r ≤ 1) :
    min c t ≤ c + (t - c) * r ∧ c + (t - c) * r ≤ max c t ∧
    |t - (c + (t - c) * r)| = (1 - r) * |t - c| := by
  have key : t - (c + (t - c) * r) = (t - c) * (1 - r) := by ring
  refine ⟨?_, ?_, ?_⟩
  · rcases le_total c t with h | h
    · rw [min_eq_left h]; nlinarith
    · rw [min_eq_right h]; nlinarith
  · rcases le_total c t with h | h
    · rw [max_eq_right h]; nlinarith
    · rw [max_eq_left h]; nlinarith
  · rw [key, abs_mul, abs_of_nonneg (by linarith : (0:ℚ) ≤ 1 - r)]
    ring

/-- C8: on every tick each visual channel (opacity, scale, luminosity)
moves from its current value toward its target by a fixed fraction of the
remaining distance (0.1, 0.15 and 0.12 respectively), so it stays between
the old value and the target (never overshooting) and the remaining
distance shrinks by the complementary factor. -/
theorem visual_channels_ease_monotonically (o : OrbData) :
    ((updateOrbVisualEffects o).currentOpacity
        = o.currentOpacity + (o.targetOpacity - o.currentOpacity) * 0.1
      ∧ (updateOrbVisualEffects o).currentScale
        = o.currentScale + (o.targetScale - o.currentScale) * 0.15
      ∧ (updateOrbVisualEffects o).currentLuminosity
        = o.currentLuminosity + (o.targetLuminosity - o.currentLuminosity) * 0.12)
    ∧ (min o.currentOpacity o.targetOpacity ≤ (updateOrbVisualEffects o).currentOpacity
      ∧ (updateOrbVisualEffects o).currentOpacity ≤ max o.currentOpacity o.targetOpacity
      ∧ min o.currentScale o.targetScale ≤ (updateOrbVisualEffects o).currentScale
      ∧ (updateOrbVisualEffects o).currentScale ≤ max o.currentScale o.targetScale
      ∧ min o.currentLuminosity o.targetLuminosity ≤ (updateOrbVisualEffects o).currentLuminosity
      ∧ (updateOrbVisualEffects o).currentLuminosity ≤ max o.currentLuminosity o.targetLuminosity)
    ∧ (|o.targetOpacity - (updateOrbVisualEffects o).currentOpacity|
        = (1 - 0.1) * |o.targetOpacity - o.currentOpacity|
      ∧ |o.targetScale - (updateOrbVisualEffects o).currentScale|
        = (1 - 0.15) * |o.targetScale - o.currentScale|
      ∧ |o.targetLuminosity - (updateOrbVisualEffects o).currentLuminosity|
        = (1 - 0.12) * |o.targetLuminosity - o.currentLuminosity|) := by
  have ho := ease_step_between o.currentOpacity o.targetOpacity 0.1 (by norm_num) (by norm_num)
  have hs := ease_step_between o.currentScale o.targetScale 0.15 (by norm_num) (by norm_num)
  have hl := ease_step_between o.currentLuminosity o.targetLuminosity 0.12 (by norm_num) (by norm_num)
  refine ⟨⟨rfl, rfl, rfl⟩, ?_, ?_⟩
  · exact ⟨ho.1, ho.2.1, hs.1, hs.2.1, hl.1, hl.2.1⟩
  · exact ⟨ho.2.2, hs.2.2, hl.2.2⟩

/-- Witness for C8: with `targetOpacity = 1.0` and `currentOpacity = 0.8`
one tick yields `currentOpacity = 0.82` exactly. -/
theorem visual_channels_ease_monotonically_witness :
    (updateOrbVisualEffects { sampleOrb with targetOpacity := 1.0 }).currentOpacity = 0.82 :=
  ((visual_channels_ease_monotonically { sampleOrb with targetOpacity := 1.0 }).1.1).trans
    (by decide)

/-- C4: on an `update(now)` tick the per-orb sweep removes a started orb
exactly when its total age `now - startTime` has reached its `duration`,
regardless of which phase it is in. -/
theorem expiry_by_total_age (env : Env) (now : ℚ) (o : OrbData)
    (h : o.startTime ≤ now) :
    sweepOrb env now o = none ↔ o.duration ≤ now - o.startTime := by
  have hage : ¬ (now - o.startTime < 0) := by linarith
  by_cases hd : now - o.startTime ≥ o.duration
  · simp [sweepOrb, hage, hd]
  · simp [sweepOrb, hage, hd]

/-- Witness for C4: a rising orb with `duration = 100` (phase duration
500) is removed at age 100, before completing its rising phase. -/
theorem expiry_by_total_age_witness :
    ({ sampleOrb with duration := 100 } : OrbData).phase = Phase.rising
    ∧ sweepOrb sampleEnv 100 { sampleOrb with duration := 100 } = none :=
  ⟨rfl, (expiry_by_total_age sampleEnv 100 { sampleOrb with duration := 100 }
    (by decide)).mpr (by decide)⟩

/-- C5: during Rising (phase age < 500) the height follows the cubic
ease-out `base.y + targetHeight * (1 - (1 - p/500)^3)`; the tick with
p ≥ 500 snaps it to exactly `base.y + targetHeight`; during Falling the
height is `base.y + targetHeight - (targetHeight + sinkDepth) * (min(p/800,1))^3`
with `sinkDepth = 1.5` (non-special anchor) or `3.0` (special anchor,
matched within tolerance 0.1), plus a further `5.0` on the narrow
viewport; so at p = 800 a non-special wide-viewport orb reaches
`base.y + targetHeight - (targetHeight + 1.5)` and a special one
`base.y + targetHeight - (targetHeight + 3.0)`. -/
theorem phase_height_trajectory (width now : ℚ) (o : OrbData) :
    (o.phase = Phase.rising → now - o.phaseStartTime < 500 →
      (updateOrbAnimation width now o).meshPos.y
        = o.basePosition.y + o.targetHeight * (1 - (1 - (now - o.phaseStartTime) / 500) ^ 3))
  ∧ (o.phase = Phase.rising → 500 ≤ now - o.phaseStartTime →
      (updateOrbAnimation width now o).meshPos.y = o.basePosition.y + o.targetHeight)
  ∧ (o.phase = Phase.falling →
      (updateOrbAnimation width now o).meshPos.y
        = o.basePosition.y + o.targetHeight
          - (o.targetHeight + ((if isOrbAtSpecialPosition o.basePosition then (3.0:ℚ) else 1.5)
              + (if isMobileScreen width then (5.0:ℚ) else 0)))
            * (min ((now - o.phaseStartTime) / 800) 1) ^ 3)
  ∧ (o.phase = Phase.falling → now - o.phaseStartTime = 800 →
      isOrbAtSpecialPosition o.basePosition = false → isMobileScreen width = false →
      (updateOrbAnimation width now o).meshPos.y
        = o.basePosition.y + o.targetHeight - (o.targetHeight + 1.5))
  ∧ (o.phase = Phase.falling → now - o.phaseStartTime = 800 →
      isOrbAtSpecialPosition o.basePosition = true → isMobileScreen width = false →
      (updateOrbAnimation width now o).meshPos.y
        = o.basePosition.y + o.targetHeight - (o.targetHeight + 3.0)) := by
  have hfall : ∀ hph : o.phase = Phase.falling,
      (updateOrbAnimation width now o).meshPos.y
        = o.basePosition.y + o.targetHeight
          - (o.targetHeight + ((if isOrbAtSpecialPosition o.basePosition then (3.0:ℚ) else 1.5)
              + (if isMobileScreen width then (5.0:ℚ) else 0)))
            * (min ((now - o.phaseStartTime) / 800) 1) ^ 3 := by
    intro hph
    simp only [updateOrbAnimation, hph, Vec3.setY]
    ring
  refine ⟨?_, ?_, hfall, ?_, ?_⟩
  · intro hph hlt
    simp only [updateOrbAnimation, hph, Vec3.setY, if_neg (not_le.mpr hlt)]
  · intro hph hge
    simp only [updateOrbAnimation, hph, Vec3.setY, if_pos hge]
  · intro hph hp hsp hmb
    rw [hfall hph, hp, hsp, hmb]
    norm_num
  · intro hph hp hsp hmb
    rw [hfall hph, hp, hsp, hmb]
    norm_num

/-- Witness for C5: the sample rising orb at phase age 250 follows the
ease-out curve, and at phase age 800 a falling non-special wide-viewport
orb rests at `base.y + targetHeight - (targetHeight + 1.5)`. -/
theorem phase_height_trajectory_witness :
    (updateOrbAnimation 1024 250 sampleOrb).meshPos.y
      = sampleOrb.basePosition.y
        + sampleOrb.targetHeight * (1 - (1 - (250 - sampleOrb.phaseStartTime) / 500) ^ 3)
    ∧ (updateOrbAnimation 1024 800 { sampleOrb with phase := Phase.falling }).meshPos.y
      = sampleOrb.basePosition.y + sampleOrb.targetHeight - (sampleOrb.targetHeight + 1.5) :=
  ⟨(phase_height_trajectory 1024 250 sampleOrb).1 rfl (by decide),
   (phase_height_trajectory 1024 800 { sampleOrb with phase := Phase.falling }).2.2.2.1
     rfl (by decide) (by decide) (by decide)⟩

/-- The hover pass touches hover state only; it keeps the number of orbs. -/
theorem length_updateHoverDetection (hit : Option ℕ) (l : List OrbData) :
    (updateHoverDetection hit l).length = l.length := by
  unfold updateHoverDetection
  cases hit with
  | none => simp
  | some i =>
    cases h : (l.map resetHoverOrb)[i]? with
    | none => simp [h]
    | some o => by_cases hv : o.meshVisible <;> simp [h, hv]

/-- C1 counterexample: with the scheduler in its initial state
(`lastSpawnTime = 0`), the tick `update(0)` spawns no batch — no entity is
created and no payload record is acquired, because `0 - 0 ≥ 5000` is
false — contradicting the claim that a batch occurs at t = 0. -/
theorem spawn_scheduling_counterexample :
    (update sampleEnv 0 initState).orbs.length = 0
    ∧ (update sampleEnv 0 initState).lastSpawnTime = 0
    ∧ (update sampleEnv 0 initState).usedLinks = ∅ := by
  decide

/-- C1 amended: a spawn batch occurs on a tick exactly when
`now - lastSpawnTime ≥ spawnInterval` (5000 ms), after which
`lastSpawnTime` is set to `now`; since the initial state has
`lastSpawnTime = 0`, the tick at t = 0 spawns no batch, a tick at t = 4999
spawns none either, and the tick at t = 5000 spawns the first batch. -/
theorem spawn_scheduling_amended :
    (∀ env : Env, ∀ now : ℚ, ∀ s : OrbSystem,
      (update env now s).lastSpawnTime
        = if now - s.lastSpawnTime ≥ spawnInterval then now else s.lastSpawnTime)
  ∧ (∀ env : Env, ∀ now : ℚ, ∀ s : OrbSystem, now - s.lastSpawnTime ≥ spawnInterval →
      (update env now s).orbs
        = (updateHoverDetection env.hoverHit (spawnOrbs env now s).orbs).filterMap
            (sweepOrb env now))
  ∧ (∀ env : Env, ∀ now : ℚ, ∀ s : OrbSystem, ¬ now - s.lastSpawnTime ≥ spawnInterval →
      (update env now s).orbs
        = (updateHoverDetection env.hoverHit s.orbs).filterMap (sweepOrb env now)
      ∧ (update env now s).orbs.length ≤ s.orbs.length)
  ∧ (update sampleEnv 0 initState).orbs.length = 0
  ∧ (update sampleEnv 4999 (update sampleEnv 0 initState)).orbs.length = 0
  ∧ (update sampleEnv 5000 (update sampleEnv 0 initState)).orbs.length = 2 := by
  refine ⟨?_, ?_, ?_, by decide, by decide, by decide⟩
  · intro env now s
    by_cases hc : now - s.lastSpawnTime ≥ spawnInterval <;> simp [update, hc]
  · intro env now s hc
    simp [update, hc]
  · intro env now s hc
    constructor
    · simp [update, hc]
    · calc (update env now s).orbs.length
          = ((updateHoverDetection env.hoverHit s.orbs).filterMap (sweepOrb env now)).length := by
            simp [update, hc]
        _ ≤ (updateHoverDetection env.hoverHit s.orbs).length :=
            List.length_filterMap_le _ _
        _ = s.orbs.length := length_updateHoverDetection _ _

/-- Witness for C1 (amended): at t = 5000 from the initial state the spawn
condition holds, so the tick runs a spawn batch before the sweep. -/
theorem spawn_scheduling_amended_witness :
    (update sampleEnv 5000 initState).orbs
      = (updateHoverDetection sampleEnv.hoverHit (spawnOrbs sampleEnv 5000 initState).orbs).filterMap
          (sweepOrb sampleEnv 5000) :=
  spawn_scheduling_amended.2.1 sampleEnv 5000 initState (by decide)

/-- Model of `createOrb` pushes exactly one orb. -/
theorem length_createOrb (now delay : ℚ) (p : Vec3) (c : ℕ) (s : OrbSystem) :
    (createOrb now delay p c s).orbs.length = s.orbs.length + 1 := by
  simp [createOrb]

/-- The creation loop pushes one orb per selected position. -/
theorem length_spawnLoop (now : ℚ) (ch : ℕ → ℕ) (ps : List Vec3) (i : ℕ) (s : OrbSystem) :
    (spawnLoop now ch ps i s).orbs.length = s.orbs.length + ps.length := by
  induction ps generalizing i s with
  | nil => simp [spawnLoop]
  | cons p ps ih =>
    rw [spawnLoop, ih, length_createOrb]
    simp [Nat.add_assoc, Nat.add_comm 1]

/-- The without-replacement draw returns at most the requested number of
positions. -/
theorem length_selectSpawnPositions (n : ℕ) (ch : ℕ → ℕ) (l : List Vec3) :
    (selectSpawnPositions n ch l).length ≤ n := by
  induction n generalizing ch l with
  | zero => simp [selectSpawnPositions]
  | succ n ih =>
    cases l with
    | nil => simp [selectSpawnPositions]
    | cons a l =>
      rw [selectSpawnPositions]
      simpa using ih (fun k => ch (k + 1)) ((a :: l).eraseIdx (ch 0 % (a :: l).length))

/-- A spawn invocation creates at most `maxOrbs - liveCount` orbs. -/
theorem length_spawnOrbs (env : Env) (now : ℚ) (s : OrbSystem) :
    (spawnOrbs env now s).orbs.length ≤ s.orbs.length + (maxOrbs - s.orbs.length) := by
  unfold spawnOrbs
  by_cases hm : isMobileScreen env.width
  · by_cases h0 : s.orbs.length = 0 <;> simp [hm, h0, length_createOrb, maxOrbs]
  · simp only [hm, Bool.false_eq_true, if_false, length_spawnLoop]
    have h1 := length_selectSpawnPositions (min 2 (maxOrbs - s.orbs.length)) env.posChoices spawnPoints
    omega

/-- One `update` tick keeps the live count at or below
`max maxOrbs (previous live count)`. -/
theorem length_update_le (env : Env) (now : ℚ) (s : OrbSystem) :
    (update env now s).orbs.length ≤ max maxOrbs s.orbs.length := by
  by_cases hc : now - s.lastSpawnTime ≥ spawnInterval
  · have h2 := length_spawnOrbs env now s
    calc (update env now s).orbs.length
        = ((updateHoverDetection env.hoverHit (spawnOrbs env now s).orbs).filterMap
            (sweepOrb env now)).length := by simp [update, hc]
      _ ≤ (updateHoverDetection env.hoverHit (spawnOrbs env now s).orbs).length :=
          List.length_filterMap_le _ _
      _ = (spawnOrbs env now s).orbs.length := length_updateHoverDetection _ _
      _ ≤ max maxOrbs s.orbs.length := by omega
  · calc (update env now s).orbs.length
        = ((updateHoverDetection env.hoverHit s.orbs).filterMap (sweepOrb env now)).length := by
          simp [update, hc]
      _ ≤ (updateHoverDetection env.hoverHit s.orbs).length := List.length_filterMap_le _ _
      _ = s.orbs.length := length_updateHoverDetection _ _
      _ ≤ max maxOrbs s.orbs.length := le_max_right _ _

/-- Run a sequence of `update` ticks, each with its own external inputs
and timestamp. -/
def applyTicks (ticks : List (Env × ℚ)) (s : OrbSystem) : OrbSystem :=
  ticks.foldl (fun acc et => update et.1 et.2 acc) s

/-- C2: a spawn invocation creates at most `maxOrbs - liveCount` orbs; an
update tick never pushes a live count that was within the cap above
`maxOrbs = 2`; and every state reachable from the initial state by any
sequence of ticks (any timestamps, viewport widths and random draws) has
at most 2 live orbs. -/
theorem live_count_never_exceeds_max :
    (∀ env : Env, ∀ now : ℚ, ∀ s : OrbSystem,
        (spawnOrbs env now s).orbs.length ≤ s.orbs.length + (maxOrbs - s.orbs.length))
  ∧ (∀ env : Env, ∀ now : ℚ, ∀ s : OrbSystem, s.orbs.length ≤ maxOrbs →
        (update env now s).orbs.length ≤ maxOrbs)
  ∧ (∀ ticks : List (Env × ℚ), (applyTicks ticks initState).orbs.length ≤ maxOrbs) := by
  have hstep : ∀ env : Env, ∀ now : ℚ, ∀ s : OrbSystem, s.orbs.length ≤ maxOrbs →
      (update env now s).orbs.length ≤ maxOrbs := by
    intro env now s h
    have := length_update_le env now s
    omega
  refine ⟨length_spawnOrbs, hstep, ?_⟩
  intro ticks
  suffices h : ∀ s : OrbSystem, s.orbs.length ≤ maxOrbs →
      (applyTicks ticks s).orbs.length ≤ maxOrbs by
    exact h initState (by decide)
  induction ticks with
  | nil => intro s hs; exact hs
  | cons et ts ih =>
    intro s hs
    exact ih (update et.1 et.2 s) (hstep et.1 et.2 s hs)

/-- Witness for C2: one tick from the initial (empty, within-cap) state
stays within the cap. -/
theorem live_count_never_exceeds_max_witness :
    (update sampleEnv 5000 initState).orbs.length ≤ maxOrbs :=
  live_count_never_exceeds_max.2.1 sampleEnv 5000 initState (by decide)

/-- A catalog index is available exactly when it is in range and not in
use. -/
theorem mem_availableIndices (used : Finset ℕ) (i : ℕ) :
    i ∈ availableIndices used ↔ i < inspirationLinks.length ∧ i ∉ used := by
  simp [availableIndices]

/-- The available list is empty exactly when every catalog index is in
use. -/
theorem availableIndices_isEmpty_iff (used : Finset ℕ) :
    (availableIndices used).isEmpty = true ↔ ∀ i < inspirationLinks.length, i ∈ used := by
  rw [List.isEmpty_iff]
  simp [availableIndices, List.filter_eq_nil_iff, List.mem_range]

/-- Evaluation of `getRandomLink` when at least one index is free: no reset happens. -/
theorem getRandomLink_not_exhausted (used : Finset ℕ) (choice : ℕ)
    (h : (availableIndices used).isEmpty = false) :
    getRandomLink used choice
      = (inspirationLinks.getD
           ((availableIndices used).getD (choice % (availableIndices used).length) 0) ⟨"", ""⟩,
         insert ((availableIndices used).getD (choice % (availableIndices used).length) 0) used) := by
  simp [getRandomLink, h]

/-- Evaluation of `getRandomLink` when every index is in use: the in-use set
is cleared first, so the result set is the singleton of the chosen index. -/
theorem getRandomLink_exhausted (used : Finset ℕ) (choice : ℕ)
    (h : (availableIndices used).isEmpty = true) :
    getRandomLink used choice
      = (inspirationLinks.getD (choice % inspirationLinks.length) ⟨"", ""⟩,
         {choice % inspirationLinks.length}) := by
  have hpos : 0 < inspirationLinks.length := by decide
  have hidx : (List.range inspirationLinks.length).getD
      (choice % (List.range inspirationLinks.length).length) 0
      = choice % inspirationLinks.length := by
    rw [List.length_range]
    rw [List.getD_eq_getElem _ _ (by simpa using Nat.mod_lt choice hpos), List.getElem_range]
  simp only [getRandomLink, h, if_true]
  rw [hidx]
  simp

/-- Every free catalog index can be the outcome of some random draw. -/
theorem getRandomLink_picks_free (used : Finset ℕ) (i : ℕ)
    (hi : i < inspirationLinks.length) (hfree : i ∉ used) :
    ∃ choice, getRandomLink used choice
      = (inspirationLinks.getD i ⟨"", ""⟩, insert i used) := by
  have hmem : i ∈ availableIndices used := (mem_availableIndices used i).mpr ⟨hi, hfree⟩
  obtain ⟨k, hk, hik⟩ := List.mem_iff_getElem.mp hmem
  have hne : (availableIndices used).isEmpty = false := by
    cases hempty : (availableIndices used).isEmpty
    · rfl
    · rw [List.isEmpty_iff] at hempty
      rw [hempty] at hmem
      exact absurd hmem (List.not_mem_nil i)
  refine ⟨k, ?_⟩
  rw [getRandomLink_not_exhausted used k hne, Nat.mod_eq_of_lt hk,
      List.getD_eq_getElem _ _ hk, hik]

/-- C7: while a free index remains, `acquire` picks a not-in-use catalog
index (any free index is a possible outcome) and adds it to the in-use
set; when no index remains free the set is cleared first, so the result
set is the singleton of the chosen index and every other catalog record —
including ones bound to live orbs — becomes acquirable again. -/
theorem payload_allocator_exhaustion :
    (∀ used : Finset ℕ, ∀ choice : ℕ, (availableIndices used).isEmpty = false →
      ∃ idx, idx < inspirationLinks.length ∧ idx ∉ used ∧
        getRandomLink used choice = (inspirationLinks.getD idx ⟨"", ""⟩, insert idx used))
  ∧ (∀ used : Finset ℕ, ∀ i : ℕ, i < inspirationLinks.length → i ∉ used →
      ∃ choice, getRandomLink used choice = (inspirationLinks.getD i ⟨"", ""⟩, insert i used))
  ∧ (∀ used : Finset ℕ,
      ((availableIndices used).isEmpty = true ↔ ∀ i < inspirationLinks.length, i ∈ used))
  ∧ (∀ used : Finset ℕ, ∀ choice : ℕ, (∀ i < inspirationLinks.length, i ∈ used) →
      getRandomLink used choice
        = (inspirationLinks.getD (choice % inspirationLinks.length) ⟨"", ""⟩,
           {choice % inspirationLinks.length})
      ∧ ∀ j : ℕ, j ≠ choice % inspirationLinks.length →
          j ∉ (getRandomLink used choice).2) := by
  refine ⟨?_, getRandomLink_picks_free, availableIndices_isEmpty_iff, ?_⟩
  · intro used choice h
    have hlen : (availableIndices used).length ≠ 0 := by
      intro h0
      have he : availableIndices used = [] := List.length_eq_zero.mp h0
      rw [he] at h
      simp at h
    have hlt : choice % (availableIndices used).length < (availableIndices used).length :=
      Nat.mod_lt _ (Nat.pos_of_ne_zero hlen)
    have hmem : (availableIndices used).getD (choice % (availableIndices used).length) 0
        ∈ availableIndices used := by
      rw [List.getD_eq_getElem _ _ hlt]
      exact List.getElem_mem hlt
    rw [mem_availableIndices] at hmem
    exact ⟨_, hmem.1, hmem.2, getRandomLink_not_exhausted used choice h⟩
  · intro used choice hall
    have hempty : (availableIndices used).isEmpty = true :=
      (availableIndices_isEmpty_iff used).mpr hall
    have heq := getRandomLink_exhausted used choice hempty
    refine ⟨heq, ?_⟩
    intro j hj
    rw [heq]
    simpa using hj

/-- Witness for C7: with all 17 catalog indices in use, acquiring resets
the pool: the in-use set collapses to the singleton of the chosen index,
and a free index (3, with the pool `{0, 1}`) is a reachable outcome. -/
theorem payload_allocator_exhaustion_witness :
    (getRandomLink (Finset.range 17) 5
       = (inspirationLinks.getD 5 ⟨"", ""⟩, {5})
     ∧ ∀ j : ℕ, j ≠ 5 % inspirationLinks.length → j ∉ (getRandomLink (Finset.range 17) 5).2)
    ∧ ∃ choice, getRandomLink {0, 1} choice
        = (inspirationLinks.getD 3 ⟨"", ""⟩, insert 3 {0, 1}) :=
  ⟨payload_allocator_exhaustion.2.2.2 (Finset.range 17) 5 (by decide),
   payload_allocator_exhaustion.2.1 {0, 1} 3 (by decide) (by decide)⟩

set_option maxHeartbeats 1000000 in
/-- Each catalog record url first occurs in `inspirationLinks` at the index
of that record (the urls are pairwise distinct). -/
theorem findIdx_url_self : ∀ r < inspirationLinks.length,
    inspirationLinks.findIdx? (fun link => link.url == (inspirationLinks.getD r ⟨"", ""⟩).url)
      = some r := by decide

/-- C10: `removeOrb` releases the first catalog index whose `url` equals
the payload `url` of the removed orb (not the index that was acquired); since
the catalog urls are pairwise distinct, releasing a payload bound to two
live orbs erases the index of that record from the in-use set, making it
re-acquirable while the other orb is still bound to it. -/
theorem release_keyed_by_url (used : Finset ℕ) (l : LinkData) (j : ℕ) :
    (inspirationLinks.findIdx? (fun link => link.url == l.url) = some j →
      releaseLink used l = used.erase j)
  ∧ (inspirationLinks.findIdx? (fun link => link.url == l.url) = none →
      releaseLink used l = used)
  ∧ (∀ r < inspirationLinks.length,
      releaseLink used (inspirationLinks.getD r ⟨"", ""⟩) = used.erase r)
  ∧ (∀ r < inspirationLinks.length,
      r ∉ releaseLink used (inspirationLinks.getD r ⟨"", ""⟩)
      ∧ ∃ choice, getRandomLink (releaseLink used (inspirationLinks.getD r ⟨"", ""⟩)) choice
          = (inspirationLinks.getD r ⟨"", ""⟩,
             insert r (releaseLink used (inspirationLinks.getD r ⟨"", ""⟩)))) := by
  have hrel : ∀ r, r < inspirationLinks.length →
      releaseLink used (inspirationLinks.getD r ⟨"", ""⟩) = used.erase r := by
    intro r hr
    rw [releaseLink, findIdx_url_self r hr]
  refine ⟨?_, ?_, hrel, ?_⟩
  · intro h
    rw [releaseLink, h]
  · intro h
    rw [releaseLink, h]
  · intro r hr
    rw [hrel r hr]
    exact ⟨Finset.not_mem_erase r used,
      getRandomLink_picks_free (used.erase r) r hr (Finset.not_mem_erase r used)⟩

/-- Witness for C10: releasing catalog record 1 (its url matched at index
1) from the pool `{0, 1}` erases index 1, which is then re-acquirable. -/
theorem release_keyed_by_url_witness :
    releaseLink {0, 1} (inspirationLinks.getD 1 ⟨"", ""⟩) = ({0, 1} : Finset ℕ).erase 1
    ∧ (1 ∉ releaseLink {0, 1} (inspirationLinks.getD 1 ⟨"", ""⟩)
      ∧ ∃ choice, getRandomLink (releaseLink {0, 1} (inspirationLinks.getD 1 ⟨"", ""⟩)) choice
          = (inspirationLinks.getD 1 ⟨"", ""⟩,
             insert 1 (releaseLink {0, 1} (inspirationLinks.getD 1 ⟨"", ""⟩)))) :=
  ⟨(release_keyed_by_url {0, 1} (inspirationLinks.getD 1 ⟨"", ""⟩) 0).2.2.1 1 (by decide),
   (release_keyed_by_url {0, 1} (inspirationLinks.getD 1 ⟨"", ""⟩) 0).2.2.2 1 (by decide)⟩

/-- Rank of a phase in the forward order Rising → Paused → Falling. -/
def phaseIdx : Phase → ℕ
  | Phase.rising => 0
  | Phase.paused => 1
  | Phase.falling => 2

/-- The forward phase order. -/
def phaseOrder : List Phase := [Phase.rising, Phase.paused, Phase.falling]

/-- Collapse adjacent repeats: the distinct phases in observation order. -/
def dedupAdj : List Phase → List Phase
  | [] => []
  | [a] => [a]
  | a :: b :: l => if a = b then dedupAdj (b :: l) else a :: dedupAdj (b :: l)

/-- The phase an orb holds at each tick of a run (starting with its
current phase), truncated when the sweep removes it. -/
def phaseTrace (o : OrbData) : List (Env × ℚ) → List Phase
  | [] => [o.phase]
  | f :: fs => o.phase ::
      (match sweepOrb f.1 f.2 o with
       | none => []
       | some o' => phaseTrace o' fs)

/-- The animation step keeps the phase or advances it to its immediate
successor; it never moves backward or skips. -/
theorem phase_updateOrbAnimation (width now : ℚ) (o : OrbData) :
    (updateOrbAnimation width now o).phase = o.phase
    ∨ phaseIdx (updateOrbAnimation width now o).phase = phaseIdx o.phase + 1 := by
  cases hp : o.phase
  · by_cases h : now - o.phaseStartTime ≥ 500
    · right; simp [updateOrbAnimation, hp, h, phaseIdx]
    · left; simp [updateOrbAnimation, hp, h]
  · by_cases h : now - o.phaseStartTime ≥ 2000
    · right; simp [updateOrbAnimation, hp, h, phaseIdx]
    · left; simp [updateOrbAnimation, hp, h]
  · left; simp [updateOrbAnimation, hp]

/-- The distance-scaling step never changes the phase. -/
theorem phase_updateOrbSize (dist : Vec3 → ℚ) (o : OrbData) :
    (updateOrbSize dist o).phase = o.phase := rfl

/-- The visual-channel step never changes the phase. -/
theorem phase_updateOrbVisualEffects (o : OrbData) :
    (updateOrbVisualEffects o).phase = o.phase := rfl

/-- The phase of a surviving orb after the sweep is the same phase or its
immediate successor. -/
theorem phase_sweepOrb (env : Env) (now : ℚ) (o o' : OrbData)
    (h : sweepOrb env now o = some o') :
    o'.phase = o.phase ∨ phaseIdx o'.phase = phaseIdx o.phase + 1 := by
  unfold sweepOrb at h
  by_cases h1 : now - o.startTime < 0
  · rw [if_pos h1] at h
    obtain rfl := Option.some.inj h
    left; rfl
  · rw [if_neg h1] at h
    by_cases h2 : now - o.startTime ≥ o.duration
    · simp [h2] at h
    · simp only [h2, if_false, Option.some.injEq] at h
      subst h
      rw [phase_updateOrbVisualEffects, phase_updateOrbSize]
      have hstep := phase_updateOrbAnimation env.width now
        { o with meshVisible := true, lightVisible := true }
      simpa using hstep

/-- The tail of the forward order from any phase starts with that phase. -/
theorem phaseOrder_drop (p : Phase) :
    phaseOrder.drop (phaseIdx p) = p :: phaseOrder.drop (phaseIdx p + 1) := by
  cases p <;> rfl

/-- Over any run, the distinct phases an orb passes through form a prefix
of the forward order starting at its current phase. -/
theorem dedupAdj_phaseTrace_forward (fs : List (Env × ℚ)) :
    ∀ o : OrbData,
      List.IsPrefix (dedupAdj (phaseTrace o fs)) (phaseOrder.drop (phaseIdx o.phase)) := by
  induction fs with
  | nil =>
    intro o
    rw [phaseTrace, dedupAdj, phaseOrder_drop o.phase]
    exact ⟨phaseOrder.drop (phaseIdx o.phase + 1), rfl⟩
  | cons f fs ih =>
    intro o
    rw [phaseTrace]
    cases hsw : sweepOrb f.1 f.2 o with
    | none =>
      rw [dedupAdj, phaseOrder_drop o.phase]
      exact ⟨phaseOrder.drop (phaseIdx o.phase + 1), rfl⟩
    | some o2 =>
      have hne : ∃ t, phaseTrace o2 fs = o2.phase :: t := by
        cases fs with
        | nil => exact ⟨[], rfl⟩
        | cons g gs => exact ⟨_, rfl⟩
      obtain ⟨t, ht⟩ := hne
      show List.IsPrefix (dedupAdj (o.phase :: phaseTrace o2 fs))
        (phaseOrder.drop (phaseIdx o.phase))
      rcases phase_sweepOrb f.1 f.2 o o2 hsw with heq | hsucc
      · rw [ht, dedupAdj, if_pos heq.symm, ← ht]
        have hpre := ih o2
        rw [heq] at hpre
        exact hpre
      · have hneq : o.phase ≠ o2.phase := by
          intro hcon
          rw [hcon] at hsucc
          omega
        rw [ht, dedupAdj, if_neg hneq, ← ht, phaseOrder_drop o.phase]
        apply List.cons_prefix_cons.mpr
        refine ⟨rfl, ?_⟩
        have hpre := ih o2
        rw [hsucc] at hpre
        exact hpre

/-- C3: the animation step only keeps a phase or advances it to its
immediate successor, and over any run of ticks an orb spawned in Rising
passes through a (possibly truncated) prefix of
[Rising, Paused, Falling] with no regression and no revisit. -/
theorem phase_sequence_forward_only (o : OrbData) (h : o.phase = Phase.rising)
    (fs : List (Env × ℚ)) :
    (∀ width now : ℚ, ∀ o' : OrbData,
        (updateOrbAnimation width now o').phase = o'.phase
        ∨ phaseIdx (updateOrbAnimation width now o').phase = phaseIdx o'.phase + 1)
  ∧ List.IsPrefix (dedupAdj (phaseTrace o fs)) phaseOrder := by
  refine ⟨phase_updateOrbAnimation, ?_⟩
  have hpre := dedupAdj_phaseTrace_forward fs o
  rw [h] at hpre
  simpa [phaseIdx] using hpre

/-- Witness for C3: the sample rising orb ticked at 600, 2700 and 3600 ms
(crossing both transitions) visits a prefix of the forward order. -/
theorem phase_sequence_forward_only_witness :
    List.IsPrefix (dedupAdj (phaseTrace sampleOrb
      [(sampleEnv, 600), (sampleEnv, 2700), (sampleEnv, 3600)])) phaseOrder :=
  (phase_sequence_forward_only sampleOrb rfl
    [(sampleEnv, 600), (sampleEnv, 2700), (sampleEnv, 3600)]).2

/-- The animation step never changes the mesh visibility. -/
theorem meshVisible_updateOrbAnimation (width now : ℚ) (o : OrbData) :
    (updateOrbAnimation width now o).meshVisible = o.meshVisible := by
  cases hp : o.phase
  · by_cases h : now - o.phaseStartTime ≥ 500 <;> simp [updateOrbAnimation, hp, h]
  · by_cases h : now - o.phaseStartTime ≥ 2000 <;> simp [updateOrbAnimation, hp, h]
  · simp [updateOrbAnimation, hp]

/-- Orbs already in the list survive `createOrb` (it only appends). -/
theorem mem_orbs_createOrb (now delay : ℚ) (p : Vec3) (c : ℕ) (s : OrbSystem) (o : OrbData)
    (h : o ∈ s.orbs) : o ∈ (createOrb now delay p c s).orbs := by
  simp only [createOrb, List.mem_append]
  exact Or.inl h

/-- Orbs already in the list survive the creation loop. -/
theorem mem_orbs_spawnLoop (now : ℚ) (ch : ℕ → ℕ) (ps : List Vec3) (i : ℕ) (s : OrbSystem)
    (o : OrbData) (h : o ∈ s.orbs) : o ∈ (spawnLoop now ch ps i s).orbs := by
  induction ps generalizing i s with
  | nil => exact h
  | cons p ps ih =>
    rw [spawnLoop]
    exact ih (i + 1) _ (mem_orbs_createOrb now ((i : ℚ) * 500) p (ch i) s o h)

/-- Orbs already in the list survive a spawn invocation. -/
theorem mem_orbs_spawnOrbs (env : Env) (now : ℚ) (s : OrbSystem) (o : OrbData)
    (h : o ∈ s.orbs) : o ∈ (spawnOrbs env now s).orbs := by
  unfold spawnOrbs
  by_cases hm : isMobileScreen env.width
  · rw [if_pos hm]
    by_cases h0 : s.orbs.length = 0
    · rw [if_pos h0]
      exact mem_orbs_createOrb _ _ _ _ _ _ h
    · rw [if_neg h0]
      exact h
  · rw [if_neg hm]
    exact mem_orbs_spawnLoop _ _ _ _ _ _ h

/-- The orb list after one tick: the (possibly spawned-into) list goes
through the hover pass and then the sweep. -/
theorem update_orbs_eq (env : Env) (now : ℚ) (s : OrbSystem) :
    (update env now s).orbs
      = (updateHoverDetection env.hoverHit
          (if now - s.lastSpawnTime ≥ spawnInterval then (spawnOrbs env now s).orbs
           else s.orbs)).filterMap
        (sweepOrb env now) := by
  by_cases hc : now - s.lastSpawnTime ≥ spawnInterval <;> simp [update, hc]

/-- The hover pass with no intersection is the reset map. -/
theorem updateHoverDetection_none (l : List OrbData) :
    updateHoverDetection none l = l.map resetHoverOrb := rfl

/-- The hover pass with a nearest intersected mesh: reset everything, then
apply the preset at the hit index when that orb is visible. -/
theorem updateHoverDetection_some (l : List OrbData) (i : ℕ) :
    updateHoverDetection (some i) l
      = match (l.map resetHoverOrb)[i]? with
        | none => l.map resetHoverOrb
        | some o => if o.meshVisible then (l.map resetHoverOrb).set i (hoverPresetOrb o)
                    else l.map resetHoverOrb := rfl

/-- Every orb in the list survives the hover pass, as its reset image or
with the hover preset applied on top of the reset. -/
theorem mem_updateHoverDetection_of_mem (hit : Option ℕ) (l : List OrbData) (x : OrbData)
    (h : x ∈ l) :
    ∃ a ∈ updateHoverDetection hit l,
      a = resetHoverOrb x ∨ a = hoverPresetOrb (resetHoverOrb x) := by
  obtain ⟨j, hj, rfl⟩ := List.mem_iff_getElem.mp h
  cases hit with
  | none =>
    rw [updateHoverDetection_none]
    exact ⟨resetHoverOrb (l.get ⟨j, hj⟩), List.mem_map_of_mem _ (List.getElem_mem hj),
      Or.inl rfl⟩
  | some i =>
    rw [updateHoverDetection_some]
    cases hq : (l.map resetHoverOrb)[i]? with
    | none =>
      exact ⟨resetHoverOrb (l.get ⟨j, hj⟩), List.mem_map_of_mem _ (List.getElem_mem hj),
        Or.inl rfl⟩
    | some o =>
      by_cases hv : o.meshVisible
      · simp only [hv, if_true]
        have hi : i < (l.map resetHoverOrb).length := (List.getElem?_eq_some_iff.mp hq).1
        have hil : i < l.length := by simpa using hi
        have ho : o = resetHoverOrb l[i] := by
          rw [List.getElem?_eq_getElem hi] at hq
          have hq2 := Option.some.inj hq
          rw [← hq2]
          exact List.getElem_map ..
        by_cases hij : i = j
        · subst hij
          have h2 : i < ((l.map resetHoverOrb).set i (hoverPresetOrb o)).length := by
            simpa using hj
          refine ⟨hoverPresetOrb o, ?_, Or.inr (by rw [ho])⟩
          have hset := List.getElem_set_self (l := l.map resetHoverOrb) (i := i)
            (a := hoverPresetOrb o) (h := h2)
          have hmem2 := List.getElem_mem h2
          rw [hset] at hmem2
          exact hmem2
        · have h2 : j < ((l.map resetHoverOrb).set i (hoverPresetOrb o)).length := by
            simpa using hj
          have hjm : j < (l.map resetHoverOrb).length := by simpa using hj
          refine ⟨resetHoverOrb l[j], ?_, Or.inl rfl⟩
          have hset : ((l.map resetHoverOrb).set i (hoverPresetOrb o))[j]
              = (l.map resetHoverOrb)[j] := List.getElem_set_ne hij ..
          have hmap : (l.map resetHoverOrb)[j] = resetHoverOrb l[j] := List.getElem_map ..
          have hmem2 := List.getElem_mem h2
          rw [hset, hmap] at hmem2
          exact hmem2
      · simp only [hv, if_false]
        exact ⟨resetHoverOrb (l.get ⟨j, hj⟩), List.mem_map_of_mem _ (List.getElem_mem hj),
          Or.inl rfl⟩

/-- The distance-scaling step never changes visibility. -/
theorem meshVisible_updateOrbSize (dist : Vec3 → ℚ) (o : OrbData) :
    (updateOrbSize dist o).meshVisible = o.meshVisible := rfl

/-- The visual-channel step never changes visibility. -/
theorem meshVisible_updateOrbVisualEffects (o : OrbData) :
    (updateOrbVisualEffects o).meshVisible = o.meshVisible := rfl

/-- The animation step never changes the light visibility. -/
theorem lightVisible_updateOrbAnimation (width now : ℚ) (o : OrbData) :
    (updateOrbAnimation width now o).lightVisible = o.lightVisible := by
  cases hp : o.phase
  · by_cases h : now - o.phaseStartTime ≥ 500 <;> simp [updateOrbAnimation, hp, h]
  · by_cases h : now - o.phaseStartTime ≥ 2000 <;> simp [updateOrbAnimation, hp, h]
  · simp [updateOrbAnimation, hp]

/-- A pending orb (`now < startTime`) survives the hover pass and the
sweep of a tick, hidden, with its clock and payload untouched. -/
theorem pending_in_swept_list (env : Env) (now : ℚ) (l : List OrbData) (o : OrbData)
    (hmem : o ∈ l) (hpend : now < o.startTime) :
    ∃ o2 ∈ (updateHoverDetection env.hoverHit l).filterMap (sweepOrb env now),
      o2.meshVisible = false ∧ o2.lightVisible = false
      ∧ o2.startTime = o.startTime ∧ o2.linkData = o.linkData := by
  obtain ⟨a, ha, hform⟩ := mem_updateHoverDetection_of_mem env.hoverHit l o hmem
  have hfields : a.startTime = o.startTime ∧ a.linkData = o.linkData := by
    rcases hform with rfl | rfl <;> exact ⟨rfl, rfl⟩
  have hlt : now - a.startTime < 0 := by
    rw [hfields.1]
    linarith
  have hsw : sweepOrb env now a
      = some { a with meshVisible := false, lightVisible := false } := by
    simp only [sweepOrb, if_pos hlt]
  exact ⟨{ a with meshVisible := false, lightVisible := false },
    List.mem_filterMap.mpr ⟨a, ha, hsw⟩, rfl, rfl, hfields.1, hfields.2⟩

/-- C6: an orb whose start time has not arrived is kept in the live set
but hidden and not animated; once started (and not expired) it is made
visible; the lighting snapshot contains exactly one pair per visible orb
and none for invisible ones; and an invisible orb is excluded from click
handling and from the hover preset. -/
theorem pending_entity_exclusion (env : Env) (now t : ℚ) (s : OrbSystem) (o : OrbData) :
    (now < o.startTime →
      sweepOrb env now o = some { o with meshVisible := false, lightVisible := false })
  ∧ (o.startTime ≤ now → now - o.startTime < o.duration →
      ∃ o2, sweepOrb env now o = some o2 ∧ o2.meshVisible = true ∧ o2.lightVisible = true)
  ∧ (o ∈ s.orbs → now < o.startTime →
      ∃ o2 ∈ (update env now s).orbs,
        o2.meshVisible = false ∧ o2.lightVisible = false
        ∧ o2.startTime = o.startTime ∧ o2.linkData = o.linkData)
  ∧ (∀ p ∈ (getSimpleOrbData t s).1, ∃ o2 ∈ s.orbs, o2.meshVisible = true ∧ o2.meshPos = p)
  ∧ ((getSimpleOrbData t s).1.length = (s.orbs.filter (fun o2 => o2.meshVisible)).length)
  ∧ (o ∈ s.orbs → o.meshVisible = true → o.meshPos ∈ (getSimpleOrbData t s).1)
  ∧ (∀ i : ℕ, ∀ o2 : OrbData, s.orbs[i]? = some o2 → o2.meshVisible = false →
      onOrbClick (some i) s = (s, []))
  ∧ (∀ i : ℕ, ∀ o2 : OrbData, (s.orbs.map resetHoverOrb)[i]? = some o2 →
      o2.meshVisible = false →
      updateHoverDetection (some i) s.orbs = s.orbs.map resetHoverOrb) := by
  refine ⟨?_, ?_, ?_, ?_, ?_, ?_, ?_, ?_⟩
  · intro hpend
    have hlt : now - o.startTime < 0 := by linarith
    simp only [sweepOrb, if_pos hlt]
  · intro h1 h2
    have hage : ¬ (now - o.startTime < 0) := by linarith
    have hdur : ¬ (now - o.startTime ≥ o.duration) := by linarith
    refine ⟨updateOrbVisualEffects (updateOrbSize env.distToCamera
        (updateOrbAnimation env.width now { o with meshVisible := true, lightVisible := true })),
      ?_, ?_, ?_⟩
    · simp only [sweepOrb, if_neg hage, if_neg hdur]
    · rw [meshVisible_updateOrbVisualEffects, meshVisible_updateOrbSize,
          meshVisible_updateOrbAnimation]
    · rw [show ∀ x : OrbData, (updateOrbVisualEffects x).lightVisible = x.lightVisible
          from fun _ => rfl,
          show ∀ x : OrbData, (updateOrbSize env.distToCamera x).lightVisible = x.lightVisible
          from fun _ => rfl,
          lightVisible_updateOrbAnimation]
  · intro hmem hpend
    rw [update_orbs_eq]
    by_cases hc : now - s.lastSpawnTime ≥ spawnInterval
    · rw [if_pos hc]
      exact pending_in_swept_list env now _ o (mem_orbs_spawnOrbs env now s o hmem) hpend
    · rw [if_neg hc]
      exact pending_in_swept_list env now _ o hmem hpend
  · intro p hp
    simp only [getSimpleOrbData, List.mem_map, List.mem_filter] at hp
    obtain ⟨o2, ⟨hmem, hv⟩, rfl⟩ := hp
    exact ⟨o2, hmem, by simpa using hv, rfl⟩
  · simp [getSimpleOrbData]
  · intro hmem hv
    simp only [getSimpleOrbData, List.mem_map]
    exact ⟨o, List.mem_filter.mpr ⟨hmem, by simpa using hv⟩, rfl⟩
  · intro i o2 hq hv
    simp [onOrbClick, hq, hv]
  · intro i o2 hq hv
    rw [updateHoverDetection_some, hq]
    simp [hv]

/-- The delayed second orb of a desktop batch: start time 500 ms, created
hidden. -/
def pendingOrb : OrbData :=
  { sampleOrb with
    startTime := 500
    phaseStartTime := 500
    meshVisible := false
    lightVisible := false }

/-- A state holding only the pending orb. -/
def pendingState : OrbSystem :=
  { orbs := [pendingOrb], lastSpawnTime := 0, usedLinks := {0} }

/-- Witness for C6: at t = 100 (before the pending orb start time 500)
the sweep keeps it hidden, and after the whole tick it is still in the
live set, invisible, with clock and payload untouched. -/
theorem pending_entity_exclusion_witness :
    sweepOrb sampleEnv 100 pendingOrb
      = some { pendingOrb with meshVisible := false, lightVisible := false }
    ∧ ∃ o2 ∈ (update sampleEnv 100 pendingState).orbs,
        o2.meshVisible = false ∧ o2.lightVisible = false
        ∧ o2.startTime = pendingOrb.startTime ∧ o2.linkData = pendingOrb.linkData :=
  ⟨(pending_entity_exclusion sampleEnv 100 0 pendingState pendingOrb).1 (by decide),
   (pending_entity_exclusion sampleEnv 100 0 pendingState pendingOrb).2.2.1
     (by decide) (by decide)⟩

/-- Run a sequence of click events (each carrying the index of the orb
owning the nearest intersected visible mesh, or `none`); returns the
concatenated `window.open` events. -/
def runClicks (s : OrbSystem) : List (Option ℕ) → List (ℕ × String)
  | [] => []
  | h :: hs => (onOrbClick h s).2 ++ runClicks (onOrbClick h s).1 hs

/-- A click is either a no-op or the first click on a visible unclicked
orb, which marks it clicked and opens its payload URL once. -/
theorem onOrbClick_cases (h : Option ℕ) (s : OrbSystem) :
    onOrbClick h s = (s, [])
    ∨ ∃ i o, h = some i ∧ s.orbs[i]? = some o ∧ o.meshVisible = true ∧ o.isClicked = false
        ∧ onOrbClick h s
            = ({ s with orbs := s.orbs.set i { o with isClicked := true } },
               [(i, o.linkData.url)]) := by
  cases h with
  | none => exact Or.inl rfl
  | some i =>
    cases hq : s.orbs[i]? with
    | none => exact Or.inl (by simp [onOrbClick, hq])
    | some o =>
      by_cases hv : o.meshVisible
      · by_cases hcl : o.isClicked
        · exact Or.inl (by simp [onOrbClick, hq, hv, hcl])
        · exact Or.inr ⟨i, o, rfl, hq, hv, by simpa using hcl,
            by simp [onOrbClick, hq, hv, hcl]⟩
      · exact Or.inl (by simp [onOrbClick, hq, hv])

/-- If the orb at index `i` is absent or already clicked, a click event
emits nothing tagged `i` and the property persists. -/
theorem onOrbClick_clicked_invariant (h : Option ℕ) (s : OrbSystem) (i : ℕ)
    (hP : ∀ o : OrbData, s.orbs[i]? = some o → o.isClicked = true) :
    ((onOrbClick h s).2.filter (fun e => e.1 == i)) = []
    ∧ ∀ o : OrbData, ((onOrbClick h s).1).orbs[i]? = some o → o.isClicked = true := by
  rcases onOrbClick_cases h s with heq | ⟨j, o, rfl, hq, hv, hcl, heq⟩
  · rw [heq]
    exact ⟨rfl, hP⟩
  · have hij : j ≠ i := by
      intro hji
      rw [hji] at hq
      have hc2 := hP o hq
      rw [hc2] at hcl
      exact absurd hcl (by simp)
    rw [heq]
    refine ⟨by simp [hij], ?_⟩
    intro o2 hq2
    have hq3 : (s.orbs.set j { o with isClicked := true })[i]? = some o2 := hq2
    rw [List.getElem?_set_ne hij] at hq3
    exact hP o2 hq3

/-- Once the orb at an index is absent or already clicked, no later click
of a run emits an event tagged with that index. -/
theorem runClicks_clicked (hits : List (Option ℕ)) :
    ∀ s : OrbSystem, ∀ i : ℕ, (∀ o : OrbData, s.orbs[i]? = some o → o.isClicked = true) →
      (runClicks s hits).filter (fun e => e.1 == i) = [] := by
  induction hits with
  | nil => intro s i _; rfl
  | cons h hs ih =>
    intro s i hP
    rw [runClicks, List.filter_append]
    have h1 := onOrbClick_clicked_invariant h s i hP
    rw [h1.1, ih (onOrbClick h s).1 i h1.2]
    rfl

/-- Over any run of click events, at most one `window.open` is emitted for
any given orb index. -/
theorem runClicks_at_most_once (hits : List (Option ℕ)) :
    ∀ s : OrbSystem, ∀ i : ℕ,
      ((runClicks s hits).filter (fun e => e.1 == i)).length ≤ 1 := by
  induction hits with
  | nil => intro s i; simp [runClicks]
  | cons h hs ih =>
    intro s i
    rw [runClicks, List.filter_append, List.length_append]
    rcases onOrbClick_cases h s with heq | ⟨j, o, hh, hq, hv, hcl, heq⟩
    · rw [heq]
      simpa using ih s i
    · rw [heq]
      by_cases hij : j = i
      · subst hij
        have hlen : j < s.orbs.length := (List.getElem?_eq_some_iff.mp hq).1
        have hP : ∀ o2 : OrbData,
            ({ s with orbs := s.orbs.set j { o with isClicked := true } } : OrbSystem).orbs[j]?
              = some o2 → o2.isClicked = true := by
          intro o2 hq2
          have hq3 : (s.orbs.set j { o with isClicked := true })[j]? = some o2 := hq2
          have hb : j < (s.orbs.set j { o with isClicked := true }).length := by
            simpa using hlen
          rw [List.getElem?_eq_getElem hb, List.getElem_set_self] at hq3
          obtain rfl := Option.some.inj hq3
          rfl
        rw [runClicks_clicked hs _ j hP]
        simp
      · have hfe : ([(j, o.linkData.url)].filter (fun e => e.1 == i)) = [] := by
          simp [hij]
        rw [hfe]
        simpa using ih _ i

/-- The animation step never changes the clicked flag. -/
theorem isClicked_updateOrbAnimation (width now : ℚ) (o : OrbData) :
    (updateOrbAnimation width now o).isClicked = o.isClicked := by
  cases hp : o.phase
  · by_cases h : now - o.phaseStartTime ≥ 500 <;> simp [updateOrbAnimation, hp, h]
  · by_cases h : now - o.phaseStartTime ≥ 2000 <;> simp [updateOrbAnimation, hp, h]
  · simp [updateOrbAnimation, hp]

/-- The clicked flag survives the per-tick sweep unchanged. -/
theorem isClicked_sweepOrb (env : Env) (now : ℚ) (o o2 : OrbData)
    (h : sweepOrb env now o = some o2) : o2.isClicked = o.isClicked := by
  unfold sweepOrb at h
  by_cases h1 : now - o.startTime < 0
  · rw [if_pos h1] at h
    obtain rfl := Option.some.inj h
    rfl
  · rw [if_neg h1] at h
    by_cases h2 : now - o.startTime ≥ o.duration
    · simp [h2] at h
    · simp only [h2, if_false, Option.some.injEq] at h
      subst h
      rw [show ∀ x : OrbData, (updateOrbVisualEffects x).isClicked = x.isClicked
            from fun _ => rfl,
          show ∀ x : OrbData, (updateOrbSize env.distToCamera x).isClicked = x.isClicked
            from fun _ => rfl,
          isClicked_updateOrbAnimation]

/-- C9: the first click on a visible, not-yet-clicked orb marks it clicked
and opens its payload URL; a click on an already-clicked orb is a no-op;
over any run of click events at most one open is emitted per orb index;
and neither the sweep nor the hover pass ever resets the clicked flag. -/
theorem click_idempotent_per_entity (s : OrbSystem) (hits : List (Option ℕ)) (i : ℕ) :
    (∀ o : OrbData, s.orbs[i]? = some o → o.meshVisible = true → o.isClicked = false →
      onOrbClick (some i) s
        = ({ s with orbs := s.orbs.set i { o with isClicked := true } },
           [(i, o.linkData.url)]))
  ∧ (∀ o : OrbData, s.orbs[i]? = some o → o.isClicked = true →
      onOrbClick (some i) s = (s, []))
  ∧ ((runClicks s hits).filter (fun e => e.1 == i)).length ≤ 1
  ∧ (∀ env : Env, ∀ now : ℚ, ∀ o o2 : OrbData, sweepOrb env now o = some o2 →
      o2.isClicked = o.isClicked)
  ∧ (∀ o : OrbData, (resetHoverOrb o).isClicked = o.isClicked
      ∧ (hoverPresetOrb o).isClicked = o.isClicked) := by
  refine ⟨?_, ?_, runClicks_at_most_once hits s i, isClicked_sweepOrb, fun o => ⟨rfl, rfl⟩⟩
  · intro o hq hv hcl
    simp [onOrbClick, hq, hv, hcl]
  · intro o hq hcl
    simp [onOrbClick, hq, hcl]

/-- A state holding the sample orb, visible and not yet clicked. -/
def clickState : OrbSystem :=
  { orbs := [sampleOrb], lastSpawnTime := 0, usedLinks := {0} }

/-- Witness for C9: the first click on the sample orb opens its URL and
marks it clicked; a double-click run emits at most one open for it. -/
theorem click_idempotent_per_entity_witness :
    onOrbClick (some 0) clickState
      = ({ clickState with orbs := clickState.orbs.set 0 { sampleOrb with isClicked := true } },
         [(0, sampleOrb.linkData.url)])
    ∧ ((runClicks clickState [some 0, some 0]).filter (fun e => e.1 == 0)).length ≤ 1 :=
  ⟨(click_idempotent_per_entity clickState [some 0, some 0] 0).1 sampleOrb rfl rfl rfl,
   (click_idempotent_per_entity clickState [some 0, some 0] 0).2.2.1⟩
